import Mathlib

/-!
Verification development for the DH-kinematics calculator
(`dh-kinematics-gui.py`).  The symbolic engine of the program is shallowly
embedded: sympy expressions become the inductive type `Expr`, the parameter
parser `safe_sympify` (with its shorthand regex rewrite) becomes a computable
string scanner and recursive-descent parser, the modified-DH transform builder
`mDH_deg` is embedded both symbolically and as a real-valued matrix function,
the two matrix registries become Lean lists, and the matrix-expression
evaluator (`_process_matrix_expression` plus Python `eval` over the restricted
names dictionary) becomes a computable tokenizer, parser and interpreter.
-/

namespace DHCalc

/-- Model of a sympy expression tree.  A symbol carries its name and whether
it was declared with the `positive=True` assumption (sympy symbols with
different assumptions are different symbols). -/
inductive Expr where
  | num (q : ℚ)
  | sym (name : String) (positive : Bool)
  | pi
  | add (a b : Expr)
  | sub (a b : Expr)
  | mul (a b : Expr)
  | div (a b : Expr)
  | pow (a b : Expr)
  | neg (a : Expr)
  | sin (a : Expr)
  | cos (a : Expr)
deriving DecidableEq, Repr

/-- Characters treated as whitespace by Python's `str.strip`. -/
def isPySpace (c : Char) : Bool :=
  c == ' ' || c == '\t' || c == '\n' || c == '\r'

/-- Model of Python's `str.strip()`. -/
def pyStrip (s : String) : String :=
  ⟨((s.data.dropWhile isPySpace).reverse.dropWhile isPySpace).reverse⟩

/-- Word characters of the regex class `\w` (ASCII fragment, which covers all
identifiers the program manipulates). -/
def isWordChar (c : Char) : Bool :=
  c.isAlpha || c.isDigit || c == '_'

/-- Scanner for one substitution `re.sub(r'\bX([0-9]*)\b', repl ++ digits, s)`
where `X` is the single character `tgt`.  `bnd` records whether the current
position is at a word boundary (start of string or preceded by a non-word
character); a match consumes `tgt` plus a run of digits and requires the next
character to be a non-word character (or the end of the string). -/
def subWBAux (tgt : Char) (repl : List Char) :
    ℕ → Bool → List Char → List Char
  | 0, _, rest => rest
  | _ + 1, _, [] => []
  | f + 1, bnd, c :: rest =>
    if bnd && c == tgt then
      let digits := rest.takeWhile (·.isDigit)
      let rest' := rest.dropWhile (·.isDigit)
      match rest'.head? with
      | none => repl ++ digits
      | some c' =>
        if isWordChar c' then
          c :: subWBAux tgt repl f (!isWordChar c) rest
        else
          repl ++ digits ++ subWBAux tgt repl f false rest'
    else
      c :: subWBAux tgt repl f (!isWordChar c) rest

/-- Whole-token substitution `re.sub(r'\bX([0-9]*)\b', repl + digits, s)`. -/
def subWB (tgt : Char) (repl : String) (s : String) : String :=
  ⟨subWBAux tgt repl.data (s.data.length + 1) true s.data⟩

/-- Shorthand rewrite of `safe_sympify`: the four sequential `re.sub` calls
rewriting whole tokens `T`/`t` (plus digits) to `theta...` and `A`/`a` (plus
digits) to `alpha...`. -/
def shorthandExpand (s : String) : String :=
  subWB 'a' "alpha" (subWB 'A' "alpha" (subWB 't' "theta" (subWB 'T' "theta" s)))

/-! Tokenizer and parser modelling `sympy.sympify` on the arithmetic fragment
the calculator feeds it (numbers, names, `+ - * / **`, parentheses).  Name
resolution follows `parse_expr`: the `locals` dictionary first, then sympy's
global namespace, and otherwise the `auto_symbol` transformation which turns
an undefined bareword into `Symbol(name)` with **no** assumptions. -/

/-- Tokens of the arithmetic fragment. -/
inductive Tok where
  | name (s : String)
  | num (q : ℚ)
  | plus
  | minus
  | star
  | dstar
  | slash
  | lparen
  | rparen
deriving DecidableEq, Repr

/-- Numeric value of a run of decimal digits. -/
def digitsToNat (ds : List Char) : ℕ :=
  ds.foldl (fun a c => 10 * a + (c.toNat - 48)) 0

/-- Tokenizer for the sympify fragment (fuelled; fuel bounds the number of
characters consumed). -/
def tokenizeAux : ℕ → List Char → Except String (List Tok)
  | 0, _ => .error "SympifyError: tokenizer fuel exhausted"
  | _ + 1, [] => .ok []
  | f + 1, c :: cs =>
    if isPySpace c then
      tokenizeAux f cs
    else if c.isAlpha || c == '_' then
      let run := (c :: cs).takeWhile isWordChar
      let rest := (c :: cs).dropWhile isWordChar
      (tokenizeAux f rest).map (Tok.name ⟨run⟩ :: ·)
    else if c.isDigit then
      let intDs := (c :: cs).takeWhile (·.isDigit)
      let rest := (c :: cs).dropWhile (·.isDigit)
      match rest with
      | '.' :: rest2 =>
        let fracDs := rest2.takeWhile (·.isDigit)
        let rest3 := rest2.dropWhile (·.isDigit)
        let q : ℚ := (digitsToNat intDs : ℚ) +
          (digitsToNat fracDs : ℚ) / ((10 : ℚ) ^ fracDs.length)
        (tokenizeAux f rest3).map (Tok.num q :: ·)
      | _ =>
        (tokenizeAux f rest).map (Tok.num (digitsToNat intDs : ℚ) :: ·)
    else if c == '+' then (tokenizeAux f cs).map (Tok.plus :: ·)
    else if c == '-' then (tokenizeAux f cs).map (Tok.minus :: ·)
    else if c == '*' then
      match cs with
      | '*' :: cs2 => (tokenizeAux f cs2).map (Tok.dstar :: ·)
      | _ => (tokenizeAux f cs).map (Tok.star :: ·)
    else if c == '/' then (tokenizeAux f cs).map (Tok.slash :: ·)
    else if c == '(' then (tokenizeAux f cs).map (Tok.lparen :: ·)
    else if c == ')' then (tokenizeAux f cs).map (Tok.rparen :: ·)
    else .error "SympifyError: could not parse"

/-- Tokenize a string for the sympify model. -/
def tokenize (s : String) : Except String (List Tok) :=
  tokenizeAux (s.data.length + 1) s.data

/-- Fragment of sympy's global namespace relevant to name resolution in
`parse_expr` (the constant `pi`; the program's inputs use no other
library-global names). -/
def sympyGlobal : List (String × Expr) := [("pi", Expr.pi)]

/-- Association-list lookup (first match wins, like a Python dict built
left to right with distinct keys). -/
def lookupName {β : Type _} (l : List (String × β)) (s : String) : Option β :=
  match l with
  | [] => none
  | (n, v) :: rest => if n = s then some v else lookupName rest s

/-- Resolve a bareword during parsing: `local_dict` first, then sympy's
globals, otherwise the `auto_symbol` transformation creates a symbol with no
assumptions. -/
def resolveName (L : List (String × Expr)) (s : String) : Expr :=
  match lookupName L s with
  | some e => e
  | none =>
    match lookupName sympyGlobal s with
    | some e => e
    | none => Expr.sym s false

mutual

/-- Additive level: `term (('+' | '-') term)*`. -/
def parseE (L : List (String × Expr)) :
    ℕ → List Tok → Except String (Expr × List Tok)
  | 0, _ => .error "SympifyError: parser fuel exhausted"
  | f + 1, ts => do
    let (a, ts1) ← parseT L f ts
    parseESfx L f a ts1

/-- Left-associative continuation of the additive level. -/
def parseESfx (L : List (String × Expr)) :
    ℕ → Expr → List Tok → Except String (Expr × List Tok)
  | 0, _, _ => .error "SympifyError: parser fuel exhausted"
  | f + 1, acc, ts =>
    match ts with
    | .plus :: ts' => do
      let (b, ts1) ← parseT L f ts'
      parseESfx L f (.add acc b) ts1
    | .minus :: ts' => do
      let (b, ts1) ← parseT L f ts'
      parseESfx L f (.sub acc b) ts1
    | _ => .ok (acc, ts)

/-- Multiplicative level: `unary (('*' | '/') unary)*`. -/
def parseT (L : List (String × Expr)) :
    ℕ → List Tok → Except String (Expr × List Tok)
  | 0, _ => .error "SympifyError: parser fuel exhausted"
  | f + 1, ts => do
    let (a, ts1) ← parseU L f ts
    parseTSfx L f a ts1

/-- Left-associative continuation of the multiplicative level. -/
def parseTSfx (L : List (String × Expr)) :
    ℕ → Expr → List Tok → Except String (Expr × List Tok)
  | 0, _, _ => .error "SympifyError: parser fuel exhausted"
  | f + 1, acc, ts =>
    match ts with
    | .star :: ts' => do
      let (b, ts1) ← parseU L f ts'
      parseTSfx L f (.mul acc b) ts1
    | .slash :: ts' => do
      let (b, ts1) ← parseU L f ts'
      parseTSfx L f (.div acc b) ts1
    | _ => .ok (acc, ts)

/-- Unary level: a chain of unary minuses. -/
def parseU (L : List (String × Expr)) :
    ℕ → List Tok → Except String (Expr × List Tok)
  | 0, _ => .error "SympifyError: parser fuel exhausted"
  | f + 1, ts =>
    match ts with
    | .minus :: ts' => do
      let (a, ts1) ← parseU L f ts'
      .ok (.neg a, ts1)
    | _ => parseP L f ts

/-- Power level: `atom ('**' unary)?` (right-binding exponent). -/
def parseP (L : List (String × Expr)) :
    ℕ → List Tok → Except String (Expr × List Tok)
  | 0, _ => .error "SympifyError: parser fuel exhausted"
  | f + 1, ts => do
    let (a, ts1) ← parseAtom L f ts
    match ts1 with
    | .dstar :: ts' => do
      let (b, ts2) ← parseU L f ts'
      .ok (.pow a b, ts2)
    | _ => .ok (a, ts1)

/-- Atoms: numbers, names (resolved per `resolveName`), parenthesized
expressions. -/
def parseAtom (L : List (String × Expr)) :
    ℕ → List Tok → Except String (Expr × List Tok)
  | 0, _ => .error "SympifyError: parser fuel exhausted"
  | f + 1, ts =>
    match ts with
    | .num q :: ts' => .ok (.num q, ts')
    | .name s :: ts' => .ok (resolveName L s, ts')
    | .lparen :: ts' => do
      let (a, ts1) ← parseE L f ts'
      match ts1 with
      | .rparen :: ts2 => .ok (a, ts2)
      | _ => .error "SympifyError: expected closing parenthesis"
    | _ => .error "SympifyError: unexpected token"

end

/-- Model of `sympy.sympify(s, locals=L)` on the arithmetic fragment. -/
def sympifyModel (L : List (String × Expr)) (s : String) : Except String Expr := do
  let toks ← tokenize s
  let (e, rest) ← parseE L (8 * (toks.length + 1)) toks
  if rest = [] then .ok e else .error "SympifyError: trailing tokens"

/-- Maximal word-character runs of a string (fuelled scanner). -/
def wordRunsAux : ℕ → List Char → List (List Char)
  | 0, _ => []
  | _ + 1, [] => []
  | f + 1, c :: cs =>
    if isWordChar c then
      ((c :: cs).takeWhile isWordChar) :: wordRunsAux f ((c :: cs).dropWhile isWordChar)
    else
      wordRunsAux f cs

/-- Model of `re.finditer(r'\b[a-zA-Z_]\w*\b', s)`: the maximal word runs
whose first character is a letter or underscore (a run starting with a digit
has no word boundary before any interior letter, so it never matches). -/
def barewords (s : String) : List String :=
  ((wordRunsAux (s.data.length + 1) s.data).filter
    (fun run => match run.head? with
      | some c => c.isAlpha || c == '_'
      | none => false)).map (⟨·⟩)

/-- Finite model of `dir(sympy)`: the reserved library names the fallback of
`safe_sympify` refuses to shadow.  Only membership of the concrete names that
appear in the development matters; none of them is a sympy attribute. -/
def dirSp : List String :=
  ["pi", "sin", "cos", "tan", "E", "I", "N", "O", "S", "Q", "sqrt", "Symbol",
   "Matrix", "solve", "simplify", "sympify", "eye", "Eq", "Rational", "Float",
   "Integer", "beta", "gamma", "zeta", "oo", "nan", "exp", "log", "Abs"]

/-- Default `locals_dict` of `safe_sympify`: `{"pi": sympy.pi}`. -/
def defaultLocals : List (String × Expr) := [("pi", Expr.pi)]

/-- Membership of a name among the keys of an association list. -/
def hasKey (l : List (String × Expr)) (s : String) : Bool :=
  match l with
  | [] => false
  | (n, _) :: rest => n == s || hasKey rest s

/-- Model of `safe_sympify(s, locals_dict)`: strip, reject empty input, apply
the shorthand rewrite, attempt a direct sympify; on failure collect the
barewords that are neither bound in the locals nor reserved library names,
declare each as a positive-real symbol and retry once, re-raising the original
error when there is nothing to declare. -/
def safeSympify (L : List (String × Expr)) (s : String) : Except String Expr :=
  let s := pyStrip s
  if s = "" then .error "Empty input."
  else
    let se := shorthandExpand s
    match sympifyModel L se with
    | .ok e => .ok e
    | .error err =>
      let undefined := (barewords se).filter
        (fun n => !hasKey L n && !dirSp.contains n)
      if undefined = [] then .error err
      else
        let ext := L ++ undefined.dedup.map (fun n => (n, Expr.sym n true))
        sympifyModel ext se

instance {ε α : Type _} [DecidableEq ε] [DecidableEq α] : DecidableEq (Except ε α) :=
  fun a b =>
    match a, b with
    | .ok x, .ok y =>
      if h : x = y then .isTrue (by rw [h]) else .isFalse (by simp [h])
    | .error x, .error y =>
      if h : x = y then .isTrue (by rw [h]) else .isFalse (by simp [h])
    | .ok _, .error _ => .isFalse (by simp)
    | .error _, .ok _ => .isFalse (by simp)

/-! Real-valued embedding of the degree-trigonometry transform builder
(`cosd`, `sind`, `mDH_deg`).  A sympy expression denotes an exact value; the
denotation of the matrix built by `mDH_deg` is the real matrix below. -/

/-- Degree cosine: `cos(pi * x / 180)`. -/
noncomputable def cosd (x : ℝ) : ℝ := Real.cos (Real.pi * x / 180)

/-- Degree sine: `sin(pi * x / 180)`. -/
noncomputable def sind (x : ℝ) : ℝ := Real.sin (Real.pi * x / 180)

/-- The modified-DH transformation matrix built by `mDH_deg`, row by row as in
the source. -/
noncomputable def mDH_deg (alpha a d theta : ℝ) : Matrix (Fin 4) (Fin 4) ℝ :=
  !![cosd theta, -sind theta, 0, a;
     sind theta * cosd alpha, cosd theta * cosd alpha, -sind alpha, -sind alpha * d;
     sind theta * sind alpha, cosd theta * sind alpha, cosd alpha, cosd alpha * d;
     0, 0, 0, 1]

/-- Modelled from the spec: the contract matrix of `build(alpha, a, d, theta)`
with `cos_d(x) = cos(pi*x/180)` and `sin_d(x) = sin(pi*x/180)`, written out
from the specification text for comparison with `mDH_deg`. -/
noncomputable def mDH_spec (alpha a d theta : ℝ) : Matrix (Fin 4) (Fin 4) ℝ :=
  let cos_d : ℝ → ℝ := fun x => Real.cos (Real.pi * x / 180)
  let sin_d : ℝ → ℝ := fun x => Real.sin (Real.pi * x / 180)
  !![cos_d theta, -sin_d theta, 0, a;
     sin_d theta * cos_d alpha, cos_d theta * cos_d alpha, -sin_d alpha, -sin_d alpha * d;
     sin_d theta * sin_d alpha, cos_d theta * sin_d alpha, cos_d alpha, cos_d alpha * d;
     0, 0, 0, 1]

/-- Forward chaining of `_ik_solve` for the one-row chain
`(alpha=0, a=1, d=0, theta free)`: `T0N = eye(4) * mDH_deg(0, 1, 0, theta)`. -/
noncomputable def ikChain1 (theta : ℝ) : Matrix (Fin 4) (Fin 4) ℝ :=
  1 * mDH_deg 0 1 0 theta

/-- Position extracted from a chained transform: the first three entries of
its last column (`T0N[0,3]`, `T0N[1,3]`, `T0N[2,3]`). -/
noncomputable def ikPos1 (theta : ℝ) : Fin 3 → ℝ :=
  fun i => ikChain1 theta i.castSucc 3

/-- Solution set of the position equations `_ik_solve` assembles for the
one-row chain: the values of the free theta symbol satisfying
`T0N[0,3] = px`, `T0N[1,3] = py`, `T0N[2,3] = pz`.  Any solution returned by
`sympy.solve` lies in this set. -/
def ikSolSet1 (target : Fin 3 → ℝ) : Set ℝ :=
  {theta | ikPos1 theta = target}

/-! Symbolic (AST-level) embedding of the transform builder and of the
table-mode forward-kinematics pipeline. -/

/-- Symbolic degree cosine `cosd` on expression trees. -/
def cosdE (x : Expr) : Expr := .cos (.div (.mul .pi x) (.num 180))

/-- Symbolic degree sine `sind` on expression trees. -/
def sindE (x : Expr) : Expr := .sin (.div (.mul .pi x) (.num 180))

/-- Symbolic modified-DH matrix `mDH_deg` on expression trees. -/
def mDH_E (alpha a d theta : Expr) : Matrix (Fin 4) (Fin 4) Expr :=
  !![cosdE theta, .neg (sindE theta), .num 0, a;
     .mul (sindE theta) (cosdE alpha), .mul (cosdE theta) (cosdE alpha),
       .neg (sindE alpha), .mul (.neg (sindE alpha)) d;
     .mul (sindE theta) (sindE alpha), .mul (cosdE theta) (sindE alpha),
       cosdE alpha, .mul (cosdE alpha) d;
     .num 0, .num 0, .num 0, .num 1]

/-- Symbolic 4x4 identity, `sympy.eye(4)`. -/
def eyeE : Matrix (Fin 4) (Fin 4) Expr :=
  Matrix.of fun i j => if i = j then Expr.num 1 else Expr.num 0

/-- Sum of a list of symbolic expressions (used for the matrix product). -/
def sumE (l : List Expr) : Expr :=
  match l with
  | [] => .num 0
  | x :: xs => xs.foldl .add x

/-- Symbolic 4x4 matrix product. -/
def matMulE (A B : Matrix (Fin 4) (Fin 4) Expr) : Matrix (Fin 4) (Fin 4) Expr :=
  Matrix.of fun i j => sumE ((List.finRange 4).map fun k => .mul (A i k) (B k j))

/-- Model of `sympy.simplify` on symbolic matrices: it returns some
algebraically equal form; since only value-level properties are claimed it is
represented by the identity on the tree. -/
def simplifyME (A : Matrix (Fin 4) (Fin 4) Expr) : Matrix (Fin 4) (Fin 4) Expr := A

/-- Left fold of table mode's forward-kinematics loop:
`forward = eye(4); forward = simplify(forward * Ti)`. -/
def chainE (ms : List (Matrix (Fin 4) (Fin 4) Expr)) : Matrix (Fin 4) (Fin 4) Expr :=
  ms.foldl (fun acc m => simplifyME (matMulE acc m)) eyeE

/-- One row of the table (the four entry strings). -/
abbrev Row4 : Type := String × String × String × String

/-- Whether a table row is entirely blank (all four entries strip to empty),
in which case `_tbl_calculate` skips it. -/
def rowBlank (r : Row4) : Bool :=
  pyStrip r.1 == "" && pyStrip r.2.1 == "" && pyStrip r.2.2.1 == "" &&
    pyStrip r.2.2.2 == ""

/-- Parsing loop of `_tbl_calculate`: skip blank rows, parse the four entries
of each remaining row with `safe_sympify`, aborting on the first error. -/
def tblParseRows : List Row4 → Except String (List (Expr × Expr × Expr × Expr))
  | [] => .ok []
  | r :: rs =>
    if rowBlank r then tblParseRows rs
    else do
      let alpha ← safeSympify defaultLocals (pyStrip r.1)
      let a ← safeSympify defaultLocals (pyStrip r.2.1)
      let d ← safeSympify defaultLocals (pyStrip r.2.2.1)
      let theta ← safeSympify defaultLocals (pyStrip r.2.2.2)
      let tail ← tblParseRows rs
      .ok ((alpha, a, d, theta) :: tail)

/-- Model of `_tbl_calculate`: parse the non-blank rows, reject when no
parameters remain (the "Enter DH parameters first" warning), otherwise build
each `mDH_deg` matrix and fold them into the forward transform. -/
def tblCalculate (rows : List Row4) : Except String (Matrix (Fin 4) (Fin 4) Expr) :=
  match tblParseRows rows with
  | .error e => .error e
  | .ok [] => .error "Enter DH parameters first"
  | .ok ps =>
    .ok (chainE (ps.map fun p => simplifyME (mDH_E p.1 p.2.1 p.2.2.1 p.2.2.2)))

/-! Registry model.  Interactive mode keeps two parallel lists
(`int_matrices`, `int_params`); matrix-calculator mode keeps `mc_matrices`.
Display names are derived from the current position. -/

/-- Decimal digits of a natural number (fuelled; `fuel = n + 1` suffices). -/
def natDigitsAux : ℕ → ℕ → List Char
  | 0, _ => []
  | f + 1, n =>
    if n < 10 then [Char.ofNat (48 + n)]
    else natDigitsAux f (n / 10) ++ [Char.ofNat (48 + n % 10)]

/-- Decimal string of a natural number, `str(n)`. -/
def natStrL (n : ℕ) : List Char := natDigitsAux (n + 1) n

/-- Display name of interactive-mode entry `i`: `f"T{i}{i+1}"`. -/
def intName (i : ℕ) : String := ⟨'T' :: (natStrL i ++ natStrL (i + 1))⟩

/-- Display name of matrix-calculator entry `i`: `f"M{i}"`. -/
def mcName (i : ℕ) : String := ⟨'M' :: natStrL i⟩

/-- Display names of the interactive registry, derived from positions. -/
def intNamesOf {α : Type _} (l : List α) : List String :=
  (List.range l.length).map intName

/-- Display names of the matrix-calculator registry, derived from positions. -/
def mcNamesOf {α : Type _} (l : List α) : List String :=
  (List.range l.length).map mcName

/-- Model of `_int_delete`: `pop(idx)` on the registry list (the listbox is
then rebuilt from the new positions). -/
def intDelete {α : Type _} (l : List α) (i : ℕ) : List α := l.eraseIdx i

/-- Model of `_mc_delete_matrix`: `pop(idx)` on the registry list (the names
dictionary and listbox are rebuilt from the new positions). -/
def mcDelete {α : Type _} (l : List α) (i : ℕ) : List α := l.eraseIdx i

/-- Interactive-mode registry state: the stored matrices and the stored
parameter records. -/
structure IntState where
  matrices : List (Matrix (Fin 4) (Fin 4) Expr)
  params : List Row4
deriving DecidableEq

/-- Model of `_int_update`: parse the four entry strings with `safe_sympify`,
build and simplify the transform, and only then overwrite the stored matrix
and parameter record at the selected index.  The second component is the error
caught by the handler, `none` on success. -/
def intUpdate (st : IntState) (idx : ℕ) (p : Row4) : IntState × Option String :=
  match safeSympify defaultLocals p.1 with
  | .error e => (st, some e)
  | .ok alpha =>
    match safeSympify defaultLocals p.2.1 with
    | .error e => (st, some e)
    | .ok a =>
      match safeSympify defaultLocals p.2.2.1 with
      | .error e => (st, some e)
      | .ok d =>
        match safeSympify defaultLocals p.2.2.2 with
        | .error e => (st, some e)
        | .ok theta =>
          let Ti := simplifyME (mDH_E alpha a d theta)
          ({ matrices := st.matrices.set idx Ti, params := st.params.set idx p },
           none)

/-! Inverse-kinematics row assembly (`_ik_solve`, step "Parse DH
parameters"). -/

/-- Parsing loop of `_ik_solve` over the DH rows: `alpha`, `a` and `d` go
through `safe_sympify`, while the theta column text is stripped and turned
verbatim into `sympy.Symbol(text)` (no parsing, no shorthand expansion, no
assumptions). -/
def ikParseRows : List Row4 → Except String (List (Expr × Expr × Expr × Expr))
  | [] => .ok []
  | r :: rs =>
    match safeSympify defaultLocals (pyStrip r.1) with
    | .error e => .error e
    | .ok alpha =>
      match safeSympify defaultLocals (pyStrip r.2.1) with
      | .error e => .error e
      | .ok a =>
        match safeSympify defaultLocals (pyStrip r.2.2.1) with
        | .error e => .error e
        | .ok d =>
          match ikParseRows rs with
          | .error e => .error e
          | .ok tail =>
            .ok ((alpha, a, d, Expr.sym (pyStrip r.2.2.2) false) :: tail)

/-- The joint-variable list `theta_vars` accumulated by `_ik_solve` and later
handed to `sympy.solve`: one verbatim symbol per row, named by the stripped
theta-column text. -/
def ikThetaVars (rows : List Row4) : List Expr :=
  rows.map fun r => Expr.sym (pyStrip r.2.2.2) false

/-! Matrix-expression evaluator of the interactive "Matrix Calculator"
operation and of the Matrix Calculator tab: `_process_matrix_expression`
rewrites the `^T`/`^t`/`^-1` operators textually and the result is handed to
Python's `eval` with an empty global namespace and the registry's names
dictionary as locals.  Values are sympy matrices (of any shape) or Python
integers; the evaluator is embedded over an arbitrary computable field of
scalars. -/

/-- A matrix value of arbitrary shape. -/
abbrev MatV (α : Type _) : Type _ := Σ r : ℕ, Σ c : ℕ, Matrix (Fin r) (Fin c) α

/-- Errors raised during expression evaluation (and the guard warnings of the
two run-operation handlers). -/
inductive PyErr where
  | nameError (s : String)
  | typeError
  | shapeError
  | nonSquare
  | singular
  | attrError (s : String)
  | parseError
  | unsupported
  | noMatrices
  | emptyExpr
deriving DecidableEq, Repr

/-- A Python value reachable in the evaluated matrix expressions. -/
inductive Val (α : Type _) where
  | int (z : ℤ)
  | mat (M : MatV α)
deriving DecidableEq

/-- Scanner for `re.sub(r'(T\d+)\^[Tt]', r'(\1.T)', s)`. -/
def sub1Aux : ℕ → List Char → List Char
  | 0, rest => rest
  | _ + 1, [] => []
  | f + 1, c :: rest =>
    if c == 'T' then
      let ds := rest.takeWhile (·.isDigit)
      let rest' := rest.dropWhile (·.isDigit)
      match ds, rest' with
      | _ :: _, '^' :: c2 :: rest'' =>
        if c2 == 'T' || c2 == 't' then
          '(' :: 'T' :: (ds ++ '.' :: 'T' :: ')' :: sub1Aux f rest'')
        else c :: sub1Aux f rest
      | _, _ => c :: sub1Aux f rest
    else c :: sub1Aux f rest

/-- Scanner for `re.sub(r'(T\d+)\^-1', r'(\1)**(-1)', s)`. -/
def sub2Aux : ℕ → List Char → List Char
  | 0, rest => rest
  | _ + 1, [] => []
  | f + 1, c :: rest =>
    if c == 'T' then
      let ds := rest.takeWhile (·.isDigit)
      let rest' := rest.dropWhile (·.isDigit)
      match ds, rest' with
      | _ :: _, '^' :: '-' :: '1' :: rest'' =>
        '(' :: 'T' :: (ds ++ ')' :: '*' :: '*' :: '(' :: '-' :: '1' :: ')' ::
          sub2Aux f rest'')
      | _, _ => c :: sub2Aux f rest
    else c :: sub2Aux f rest

/-- Scanner for `re.sub(r'\)(\^-1)', r')**(-1)', s)`. -/
def sub3Aux : ℕ → List Char → List Char
  | 0, rest => rest
  | _ + 1, [] => []
  | f + 1, c :: rest =>
    match c, rest with
    | ')', '^' :: '-' :: '1' :: rest'' =>
      ')' :: '*' :: '*' :: '(' :: '-' :: '1' :: ')' :: sub3Aux f rest''
    | _, _ => c :: sub3Aux f rest

/-- Scanner for `re.sub(r'\)(\^[Tt])', r').T', s)`. -/
def sub4Aux : ℕ → List Char → List Char
  | 0, rest => rest
  | _ + 1, [] => []
  | f + 1, c :: rest =>
    match c, rest with
    | ')', '^' :: c2 :: rest'' =>
      if c2 == 'T' || c2 == 't' then ')' :: '.' :: 'T' :: sub4Aux f rest''
      else c :: sub4Aux f rest
    | _, _ => c :: sub4Aux f rest

/-- Model of `_process_matrix_expression`: the four sequential regex
rewrites of the transpose and inverse operators. -/
def processMatrixExpression (s : String) : String :=
  let l1 := sub1Aux (s.data.length + 1) s.data
  let l2 := sub2Aux (l1.length + 1) l1
  let l3 := sub3Aux (l2.length + 1) l2
  ⟨sub4Aux (l3.length + 1) l3⟩

/-- Tokens of the rewritten Python expression. -/
inductive PTok where
  | name (s : String)
  | int (n : ℕ)
  | star
  | dstar
  | caret
  | dot
  | minus
  | lparen
  | rparen
deriving DecidableEq, Repr

/-- Tokenizer for the rewritten Python expression. -/
def pyTokenizeAux : ℕ → List Char → Except PyErr (List PTok)
  | 0, _ => .error .parseError
  | _ + 1, [] => .ok []
  | f + 1, c :: cs =>
    if isPySpace c then
      pyTokenizeAux f cs
    else if c.isAlpha || c == '_' then
      let run := (c :: cs).takeWhile isWordChar
      let rest := (c :: cs).dropWhile isWordChar
      (pyTokenizeAux f rest).map (PTok.name ⟨run⟩ :: ·)
    else if c.isDigit then
      let ds := (c :: cs).takeWhile (·.isDigit)
      let rest := (c :: cs).dropWhile (·.isDigit)
      (pyTokenizeAux f rest).map (PTok.int (digitsToNat ds) :: ·)
    else if c == '*' then
      match cs with
      | '*' :: cs2 => (pyTokenizeAux f cs2).map (PTok.dstar :: ·)
      | _ => (pyTokenizeAux f cs).map (PTok.star :: ·)
    else if c == '^' then (pyTokenizeAux f cs).map (PTok.caret :: ·)
    else if c == '.' then (pyTokenizeAux f cs).map (PTok.dot :: ·)
    else if c == '-' then (pyTokenizeAux f cs).map (PTok.minus :: ·)
    else if c == '(' then (pyTokenizeAux f cs).map (PTok.lparen :: ·)
    else if c == ')' then (pyTokenizeAux f cs).map (PTok.rparen :: ·)
    else .error .parseError

/-- Syntax tree of the rewritten Python expression (Python precedence:
attribute access, then `**`, unary minus, `*`, and `^` last). -/
inductive PyExpr where
  | pname (s : String)
  | pint (n : ℕ)
  | pmul (a b : PyExpr)
  | ppow (a b : PyExpr)
  | pxor (a b : PyExpr)
  | pneg (a : PyExpr)
  | pattr (a : PyExpr) (fld : String)
deriving DecidableEq, Repr

mutual

/-- Lowest level: `mul ('^' mul)*` (left associative). -/
def pXorE : ℕ → List PTok → Except PyErr (PyExpr × List PTok)
  | 0, _ => .error .parseError
  | f + 1, ts => do
    let (a, ts1) ← pMulE f ts
    pXorSfx f a ts1

/-- Continuation of the `^` level. -/
def pXorSfx : ℕ → PyExpr → List PTok → Except PyErr (PyExpr × List PTok)
  | 0, _, _ => .error .parseError
  | f + 1, acc, ts =>
    match ts with
    | .caret :: ts' => do
      let (b, ts1) ← pMulE f ts'
      pXorSfx f (.pxor acc b) ts1
    | _ => .ok (acc, ts)

/-- Multiplication level: `unary ('*' unary)*`. -/
def pMulE : ℕ → List PTok → Except PyErr (PyExpr × List PTok)
  | 0, _ => .error .parseError
  | f + 1, ts => do
    let (a, ts1) ← pUnaryE f ts
    pMulSfx f a ts1

/-- Continuation of the `*` level. -/
def pMulSfx : ℕ → PyExpr → List PTok → Except PyErr (PyExpr × List PTok)
  | 0, _, _ => .error .parseError
  | f + 1, acc, ts =>
    match ts with
    | .star :: ts' => do
      let (b, ts1) ← pUnaryE f ts'
      pMulSfx f (.pmul acc b) ts1
    | _ => .ok (acc, ts)

/-- Unary level: a chain of unary minuses. -/
def pUnaryE : ℕ → List PTok → Except PyErr (PyExpr × List PTok)
  | 0, _ => .error .parseError
  | f + 1, ts =>
    match ts with
    | .minus :: ts' => do
      let (a, ts1) ← pUnaryE f ts'
      .ok (.pneg a, ts1)
    | _ => pPowE f ts

/-- Power level: `postfix ('**' unary)?`. -/
def pPowE : ℕ → List PTok → Except PyErr (PyExpr × List PTok)
  | 0, _ => .error .parseError
  | f + 1, ts => do
    let (a, ts1) ← pPostE f ts
    match ts1 with
    | .dstar :: ts' => do
      let (b, ts2) ← pUnaryE f ts'
      .ok (.ppow a b, ts2)
    | _ => .ok (a, ts1)

/-- Postfix level: `atom ('.' NAME)*` (attribute access). -/
def pPostE : ℕ → List PTok → Except PyErr (PyExpr × List PTok)
  | 0, _ => .error .parseError
  | f + 1, ts => do
    let (a, ts1) ← pAtomE f ts
    pPostSfx f a ts1

/-- Continuation of the attribute-access level. -/
def pPostSfx : ℕ → PyExpr → List PTok → Except PyErr (PyExpr × List PTok)
  | 0, _, _ => .error .parseError
  | f + 1, acc, ts =>
    match ts with
    | .dot :: .name fld :: ts' => pPostSfx f (.pattr acc fld) ts'
    | _ => .ok (acc, ts)

/-- Atoms: names, integer literals, parenthesized expressions. -/
def pAtomE : ℕ → List PTok → Except PyErr (PyExpr × List PTok)
  | 0, _ => .error .parseError
  | f + 1, ts =>
    match ts with
    | .name s :: ts' => .ok (.pname s, ts')
    | .int n :: ts' => .ok (.pint n, ts')
    | .lparen :: ts' => do
      let (a, ts1) ← pXorE f ts'
      match ts1 with
      | .rparen :: ts2 => .ok (a, ts2)
      | _ => .error .parseError
    | _ => .error .parseError

end

/-- Parse a whole rewritten expression string. -/
def pyParseAll (s : String) : Except PyErr PyExpr := do
  let toks ← pyTokenizeAux (s.data.length + 1) s.data
  let (a, rest) ← pXorE (8 * (toks.length + 1)) toks
  if rest = [] then .ok a else .error .parseError

/-- Transpose of a matrix value. -/
def matTrans {α : Type _} (M : MatV α) : MatV α := ⟨M.2.1, M.1, M.2.2.transpose⟩

/-- Inverse computed by sympy for a square matrix with nonzero determinant
(equal to Mathlib's nonsingular inverse there). -/
def invMat {α : Type _} [Field α] {n : ℕ} (A : Matrix (Fin n) (Fin n) α) :
    Matrix (Fin n) (Fin n) α :=
  A.det⁻¹ • A.adjugate

/-- Multiplication of values: integer and matrix products, with sympy's shape
check on matrix-matrix products. -/
def pyMul {α : Type _} [Field α] [DecidableEq α] (a b : Val α) :
    Except PyErr (Val α) :=
  match a, b with
  | .int x, .int y => .ok (.int (x * y))
  | .int x, .mat M => .ok (.mat ⟨M.1, M.2.1, x • M.2.2⟩)
  | .mat M, .int x => .ok (.mat ⟨M.1, M.2.1, x • M.2.2⟩)
  | .mat ⟨r1, c1, M1⟩, .mat ⟨r2, c2, M2⟩ =>
    if h : c1 = r2 then
      .ok (.mat ⟨r1, c2, M1 * M2.submatrix (Fin.cast h) id⟩)
    else .error .shapeError

/-- Exponentiation of values: a square-matrix power, with a negative exponent
meaning the matrix inverse (raising on a non-square base or a base with zero
determinant, as sympy does). -/
def pyPow {α : Type _} [Field α] [DecidableEq α] (a b : Val α) :
    Except PyErr (Val α) :=
  match a, b with
  | .mat ⟨r, c, M⟩, .int z =>
    if h : r = c then
      if z < 0 then
        if (M.submatrix id (Fin.cast h)).det = 0 then .error .singular
        else .ok (.mat ⟨r, r, invMat (M.submatrix id (Fin.cast h)) ^ (-z).toNat⟩)
      else .ok (.mat ⟨r, r, (M.submatrix id (Fin.cast h)) ^ z.toNat⟩)
    else .error .nonSquare
  | .int x, .int y => if y < 0 then .error .unsupported else .ok (.int (x ^ y.toNat))
  | _, _ => .error .typeError

/-- Python `^` (bitwise xor): defined on integers, a `TypeError` on sympy
matrices. -/
def pyXorV {α : Type _} (a b : Val α) : Except PyErr (Val α) :=
  match a, b with
  | .int x, .int y => .ok (.int (Int.xor x y))
  | _, _ => .error .typeError

/-- Evaluator for the rewritten expression over the names dictionary, the
model of `eval(expr_proc, {"__builtins__": {}}, names)`. -/
def pyEval {α : Type _} [Field α] [DecidableEq α] (env : List (String × Val α)) :
    PyExpr → Except PyErr (Val α)
  | .pname s =>
    match lookupName env s with
    | some v => .ok v
    | none => .error (.nameError s)
  | .pint n => .ok (.int n)
  | .pneg a => do
    let v ← pyEval env a
    match v with
    | .int z => .ok (.int (-z))
    | .mat M => .ok (.mat ⟨M.1, M.2.1, -M.2.2⟩)
  | .pmul a b => do
    let va ← pyEval env a
    let vb ← pyEval env b
    pyMul va vb
  | .ppow a b => do
    let va ← pyEval env a
    let vb ← pyEval env b
    pyPow va vb
  | .pxor a b => do
    let va ← pyEval env a
    let vb ← pyEval env b
    pyXorV va vb
  | .pattr a fld => do
    let va ← pyEval env a
    match va with
    | .mat M => if fld = "T" then .ok (.mat (matTrans M)) else .error (.attrError fld)
    | .int _ => .error (.attrError fld)

/-- Names dictionary of interactive mode: `{f"T{i}{i+1}": matrix}` built by
enumeration. -/
def intEnvAux {α : Type _} (k : ℕ) :
    List (Matrix (Fin 4) (Fin 4) α) → List (String × Val α)
  | [] => []
  | m :: rest => (intName k, Val.mat ⟨4, 4, m⟩) :: intEnvAux (k + 1) rest

/-- Interactive-mode names dictionary together with the extra binding
`names["I"] = eye(4)`. -/
def intEnv {α : Type _} [Field α] (ms : List (Matrix (Fin 4) (Fin 4) α)) :
    List (String × Val α) :=
  intEnvAux 0 ms ++ [("I", Val.mat ⟨4, 4, (1 : Matrix (Fin 4) (Fin 4) α)⟩)]

/-- Names dictionary of the Matrix Calculator tab: `{f"M{i}": matrix}` only
(no identity binding). -/
def mcEnv {α : Type _} (k : ℕ) : List (MatV α) → List (String × Val α)
  | [] => []
  | M :: rest => (mcName k, Val.mat M) :: mcEnv (k + 1) rest

/-- Model of `sympy.simplify` applied to a matrix result before display: it
returns an equal value. -/
def simplifyVal {α : Type _} (v : Val α) : Val α := v

/-- Rewrite and evaluate one matrix expression over a names dictionary. -/
def runMatrixExpr {α : Type _} [Field α] [DecidableEq α]
    (env : List (String × Val α)) (s : String) : Except PyErr (Val α) :=
  match pyParseAll (processMatrixExpression s) with
  | .error e => .error e
  | .ok ast => pyEval env ast

/-- Model of `_int_run_op` with choice 1 (Matrix Calculator): reject an empty
registry ("Add matrices first"), ignore an empty expression, otherwise
evaluate over the T-names dictionary extended with `I`. -/
def intRunOpCalc {α : Type _} [Field α] [DecidableEq α]
    (ms : List (Matrix (Fin 4) (Fin 4) α)) (expr : String) :
    Except PyErr (Val α) :=
  if ms.isEmpty then .error .noMatrices
  else if pyStrip expr = "" then .error .emptyExpr
  else (runMatrixExpr (intEnv ms) (pyStrip expr)).map simplifyVal

/-- Model of `_mc_run_operation`: reject an empty registry and an empty
expression, otherwise evaluate over the M-names dictionary (which contains no
`I` binding). -/
def mcRunOperation {α : Type _} [Field α] [DecidableEq α]
    (ms : List (MatV α)) (expr : String) : Except PyErr (Val α) :=
  if ms.isEmpty then .error .noMatrices
  else if pyStrip expr = "" then .error .emptyExpr
  else (runMatrixExpr (mcEnv 0 ms) (pyStrip expr)).map simplifyVal

/-- Model of `sympy.simplify` on a numeric 4x4 matrix (value preserving). -/
def simplifyM {α : Type _} (A : Matrix (Fin 4) (Fin 4) α) :
    Matrix (Fin 4) (Fin 4) α := A

/-- Forward-kinematics fold of `_int_run_op` (choices 2-4):
`Tf = eye(4); Tf = simplify(Tf * M)` over the registered matrices. -/
def chainQ {α : Type _} [Field α] (ms : List (Matrix (Fin 4) (Fin 4) α)) :
    Matrix (Fin 4) (Fin 4) α :=
  ms.foldl (fun acc m => simplifyM (acc * m)) 1

/-- Model of `_int_run_op` with choice 2 (Forward Kinematics): reject an
empty registry ("Add matrices first"), otherwise fold the registered
transforms. -/
def intRunOpFK {α : Type _} [Field α] (ms : List (Matrix (Fin 4) (Fin 4) α)) :
    Except PyErr (Matrix (Fin 4) (Fin 4) α) :=
  if ms.isEmpty then .error .noMatrices
  else .ok (chainQ ms)

/-- Model of `_mc_apply_matrix` grid reading: strip each cell, raise on an
empty cell, parse the rest with `safe_sympify`. -/
def mcParseGrid : List (List String) → Except String (List (List Expr))
  | [] => .ok []
  | row :: rows => do
    let prow ← row.foldr (fun cell acc => do
      let v := pyStrip cell
      if v = "" then .error "Grid contains empty cells"
      else do
        let e ← safeSympify defaultLocals v
        let tail ← acc
        .ok (e :: tail)) (.ok [])
    let tail ← mcParseGrid rows
    .ok (prow :: tail)

/-- Build a sympy matrix value from parsed grid rows (the grid is rectangular
by construction; missing entries default to 0). -/
def mkMatV (rows : List (List Expr)) : MatV Expr :=
  ⟨rows.length, (rows.head?.getD []).length,
    Matrix.of fun i j => (((rows.get? i).getD []).get? j).getD (Expr.num 0)⟩

/-- Model of `_mc_apply_matrix`: parse the whole grid, and only on success
overwrite the stored matrix at the selected index.  The second component is
the error caught by the handler, `none` on success. -/
def mcApplyMatrix (st : List (MatV Expr)) (idx : ℕ) (grid : List (List String)) :
    List (MatV Expr) × Option String :=
  match mcParseGrid grid with
  | .error e => (st, some e)
  | .ok rows => (st.set idx (mkMatV rows), none)

/-- A single identifier token: a letter or underscore followed by word
characters (the barewords of the shorthand rewrite). -/
def isIdent (s : String) : Bool :=
  match s.data with
  | [] => false
  | c :: _ => (c.isAlpha || c == '_') && s.data.all isWordChar

/-- Whether a token has the shorthand shape `T`/`t`/`A`/`a` followed only by
digits (the whole-token shapes rewritten by `safe_sympify`). -/
def isShorthandTok (s : String) : Bool :=
  match s.data with
  | [] => false
  | c :: rest =>
    (c == 'T' || c == 't' || c == 'A' || c == 'a') && rest.all (·.isDigit)

/-! Supporting lemmas. -/

/-- Away from a word boundary, the whole-token scanner copies a run of word
characters unchanged. -/
lemma subWBAux_no_boundary (tgt : Char) (repl : List Char) :
    ∀ (f : ℕ) (l : List Char), (∀ c ∈ l, isWordChar c = true) →
      subWBAux tgt repl f false l = l := by
  intro f
  induction f with
  | zero => intro l _; rfl
  | succ f ih =>
    intro l h
    cases l with
    | nil => rfl
    | cons c rest =>
      have hc : isWordChar c = true := h c (by simp)
      have ih' := ih rest fun x hx => h x (by simp [hx])
      simp [subWBAux, hc, ih']

/-- At a word boundary, the whole-token scanner leaves an all-word-character
token unchanged unless it is the target letter followed only by digits. -/
lemma subWBAux_ident (tgt : Char) (repl : List Char) (f : ℕ) (c : Char)
    (rest : List Char) (hc : isWordChar c = true)
    (hrest : ∀ x ∈ rest, isWordChar x = true)
    (hns : ¬(c = tgt ∧ rest.all (·.isDigit) = true)) :
    subWBAux tgt repl f true (c :: rest) = c :: rest := by
  cases f with
  | zero => rfl
  | succ f =>
    have htail := subWBAux_no_boundary tgt repl f rest hrest
    by_cases hct : c = tgt
    · subst hct
      have hdig : rest.all (·.isDigit) = false := by
        cases h : rest.all (·.isDigit) with
        | true => exact absurd ⟨rfl, h⟩ hns
        | false => rfl
      have hdw : rest.dropWhile (·.isDigit) ≠ [] := by
        intro hnil
        rw [List.dropWhile_eq_nil_iff] at hnil
        have : rest.all (·.isDigit) = true := by
          rw [List.all_eq_true]; exact hnil
        rw [this] at hdig
        simp at hdig
      obtain ⟨c', tail', heq⟩ := List.exists_cons_of_ne_nil hdw
      have hc'w : isWordChar c' = true := by
        refine hrest c' ?_
        have hmem : c' ∈ rest.dropWhile (·.isDigit) := by simp [heq]
        exact List.Sublist.mem hmem
          (List.dropWhile_sublist (fun x : Char => x.isDigit))
      simp [subWBAux, heq, hc'w, hc, htail]
    · have hne : (c == tgt) = false := by simpa using hct
      simp [subWBAux, hne, hc, htail]

/-- Whole-token substitution leaves an identifier unchanged when it does not
have the target shorthand shape. -/
lemma subWB_ident (tgt : Char) (repl : String) (s : String)
    (hid : isIdent s = true)
    (hns : ¬(s.data.head? = some tgt ∧ s.data.tail.all (·.isDigit) = true)) :
    subWB tgt repl s = s := by
  obtain ⟨data⟩ := s
  cases data with
  | nil => simp [isIdent] at hid
  | cons c rest =>
    simp only [isIdent, List.all_cons, Bool.and_eq_true, List.all_eq_true] at hid
    have hcw : isWordChar c = true := hid.2.1
    have hrest : ∀ x ∈ rest, isWordChar x = true := fun x hx => hid.2.2 x hx
    show String.mk (subWBAux tgt repl.data (rest.length + 1 + 1) true (c :: rest)) = _
    rw [subWBAux_ident tgt repl.data _ c rest hcw hrest]
    intro ⟨h1, h2⟩
    exact hns ⟨by simp [h1], by simpa using h2⟩

/-- The shorthand rewrite leaves an identifier unchanged when it is not a
whole shorthand token. -/
lemma shorthandExpand_ident (s : String) (hid : isIdent s = true)
    (hns : isShorthandTok s = false) : shorthandExpand s = s := by
  have hhead : ∀ tgt : Char,
      (tgt = 'T' ∨ tgt = 't' ∨ tgt = 'A' ∨ tgt = 'a') →
      ¬(s.data.head? = some tgt ∧ s.data.tail.all (·.isDigit) = true) := by
    intro tgt htgt ⟨h1, h2⟩
    cases hdata : s.data with
    | nil => rw [hdata] at h1; simp at h1
    | cons c rest =>
      rw [hdata] at h1 h2
      simp only [List.head?_cons, Option.some.injEq] at h1
      simp only [List.tail_cons] at h2
      simp only [isShorthandTok, hdata] at hns
      rw [h1, h2] at hns
      rcases htgt with h | h | h | h <;> simp [h] at hns
  rw [shorthandExpand, subWB_ident 'T' _ s hid (hhead 'T' (by left; rfl)),
    subWB_ident 't' _ s hid (hhead 't' (by right; left; rfl)),
    subWB_ident 'A' _ s hid (hhead 'A' (by right; right; left; rfl)),
    subWB_ident 'a' _ s hid (hhead 'a' (by right; right; right; rfl))]

/-! Claim theorems. -/

/-- C1: for all symbolic inputs, `build(alpha, a, d, theta)` returns exactly
the 4x4 modified-DH matrix of the specification (with degree-valued
trigonometry), and `build(0, a, 0, 0)` simplifies to the pure translation
`[[1,0,0,a],[0,1,0,0],[0,0,1,0],[0,0,0,1]]`. -/
theorem c1_build_matches_spec :
    (∀ alpha a d theta : ℝ, mDH_deg alpha a d theta = mDH_spec alpha a d theta)
    ∧ (∀ a : ℝ, mDH_deg 0 a 0 0 =
        !![1, 0, 0, a; 0, 1, 0, 0; 0, 0, 1, 0; 0, 0, 0, 1]) := by
  constructor
  · intro alpha a d theta; rfl
  · intro a
    have hc : cosd 0 = 1 := by simp [cosd]
    have hs : sind 0 = 0 := by simp [sind]
    ext i j
    fin_cases i <;> fin_cases j <;> simp [mDH_deg, hc, hs]

/-- C2 counterexample: theta = 90 degrees is not a solution of the position
equations assembled for the one-row chain `(alpha=0, a=1, d=0, theta free)`
with target `(0, 1, 0)` — the modified-DH position of this chain is constant
`(1, 0, 0)`. -/
theorem c2_counterexample : (90 : ℝ) ∉ ikSolSet1 ![0, 1, 0] := by
  intro h
  rw [ikSolSet1, Set.mem_setOf_eq] at h
  have h0 := congrFun h 0
  simp [ikPos1, ikChain1, mDH_deg] at h0

/-- C2 amended: for the one-row chain `(alpha=0, a=1, d=0, theta free)` the
position is identically `(1, 0, 0)`, so the solution set of the position
equations for target `(0, 1, 0)` is empty (the solver reports "No analytical
solution found", and in particular no solution contains theta = 90). -/
theorem c2_amended_no_solution :
    ikSolSet1 ![0, 1, 0] = ∅ ∧ ∀ theta : ℝ, ikPos1 theta = ![1, 0, 0] := by
  have hpos : ∀ theta : ℝ, ikPos1 theta = ![1, 0, 0] := by
    intro theta
    funext i
    fin_cases i <;>
      simp [ikPos1, ikChain1, mDH_deg, Fin.castSucc, Fin.castAdd, Fin.castLE]
  refine ⟨?_, hpos⟩
  rw [Set.eq_empty_iff_forall_not_mem]
  intro theta h
  rw [ikSolSet1, Set.mem_setOf_eq, hpos theta] at h
  have h1 := congrFun h 1
  simp at h1

/-- C3: parsing the undeclared bareword `x` succeeds on the *first* sympify
attempt via the auto-symbol transformation, producing a symbol with no
positivity assumption — the positive-real fallback never runs, contradicting
the claim that every symbol produced for an undeclared name carries the
positive-real constraint. -/
theorem c3_unconstrained_symbol :
    safeSympify defaultLocals "x" = .ok (Expr.sym "x" false)
    ∧ Expr.sym "x" false ≠ Expr.sym "x" true := by
  exact ⟨rfl, by decide⟩

/-- C4: the shorthand rewrite is a whole-token rule — `parse("t1")` and
`parse("theta1")` produce the same symbol `theta1`, `parse("A")` and
`parse("alpha")` produce the same symbol `alpha`, and any identifier that is
not a whole token `T`/`t`/`A`/`a` followed only by digits (such as `table`)
is left untouched by the rewrite. -/
theorem c4_shorthand_whole_token :
    safeSympify defaultLocals "t1" = safeSympify defaultLocals "theta1"
    ∧ safeSympify defaultLocals "t1" = .ok (Expr.sym "theta1" false)
    ∧ safeSympify defaultLocals "A" = safeSympify defaultLocals "alpha"
    ∧ safeSympify defaultLocals "A" = .ok (Expr.sym "alpha" false)
    ∧ ∀ s : String, isIdent s = true → isShorthandTok s = false →
        shorthandExpand s = s :=
  ⟨rfl, rfl, rfl, rfl, fun s h1 h2 => shorthandExpand_ident s h1 h2⟩

/-- C4 witness: the identifier `table` satisfies the hypotheses of the
whole-token theorem and is left untouched. -/
theorem c4_witness :
    isIdent "table" = true ∧ isShorthandTok "table" = false
    ∧ shorthandExpand "table" = "table" :=
  ⟨by decide, by decide,
    c4_shorthand_whole_token.2.2.2.2 "table" (by decide) (by decide)⟩

/-- C7 counterexample: with zero registered matrices, `_int_run_op` rejects
the forward-kinematics operation with the "Add matrices first" warning, and
`_tbl_calculate` with an empty table rejects with "Enter DH parameters first"
— neither returns the identity transform. -/
theorem c7_counterexample_empty_rejected :
    intRunOpFK ([] : List (Matrix (Fin 4) (Fin 4) ℚ)) = .error .noMatrices
    ∧ tblCalculate [] = .error "Enter DH parameters first" :=
  ⟨rfl, rfl⟩

/-- C7 amended: the forward-kinematics fold itself maps an empty sequence of
transforms to the 4x4 identity, but both user entry points reject an empty
registry/table with a warning before ever folding, so the identity is not
returned as a result for the zero-joint robot. -/
theorem c7_amended_empty_chain :
    chainQ ([] : List (Matrix (Fin 4) (Fin 4) ℚ)) = 1
    ∧ chainE [] = eyeE
    ∧ intRunOpFK ([] : List (Matrix (Fin 4) (Fin 4) ℚ)) = .error .noMatrices
    ∧ tblCalculate [] = .error "Enter DH parameters first" :=
  ⟨rfl, rfl, rfl, rfl⟩

/-- C8: deleting entry `i` from a registry of size `n` removes exactly that
entry (the new list is the old one with position `i` cut out, so every later
entry shifts down by one), the size becomes `n - 1`, and the display names —
`T{i}{i+1}` in joint-chain mode, `M{i}` in free-matrix mode — are re-derived
from the new positions, staying contiguous and never stale. -/
theorem c8_delete_reindex {α : Type _} (l : List α) (i : ℕ) (h : i < l.length) :
    (intDelete l i).length = l.length - 1
    ∧ intDelete l i = l.take i ++ l.drop (i + 1)
    ∧ intNamesOf (intDelete l i) = (List.range (l.length - 1)).map intName
    ∧ mcDelete l i = l.take i ++ l.drop (i + 1)
    ∧ mcNamesOf (mcDelete l i) = (List.range (l.length - 1)).map mcName := by
  have hlen : (l.eraseIdx i).length = l.length - 1 :=
    List.length_eraseIdx_of_lt h
  exact ⟨hlen, List.eraseIdx_eq_take_drop_succ ..,
    by rw [intNamesOf, intDelete, hlen],
    List.eraseIdx_eq_take_drop_succ ..,
    by rw [mcNamesOf, mcDelete, hlen]⟩

/-- C8 witness: deleting index 1 from a three-entry registry. -/
theorem c8_witness :
    (1 < ([10, 20, 30] : List ℕ).length)
    ∧ ((intDelete ([10, 20, 30] : List ℕ) 1).length = [10, 20, 30].length - 1
       ∧ intDelete ([10, 20, 30] : List ℕ) 1 =
           [10, 20, 30].take 1 ++ [10, 20, 30].drop (1 + 1)
       ∧ intNamesOf (intDelete ([10, 20, 30] : List ℕ) 1) =
           (List.range ([10, 20, 30].length - 1)).map intName
       ∧ mcDelete ([10, 20, 30] : List ℕ) 1 =
           [10, 20, 30].take 1 ++ [10, 20, 30].drop (1 + 1)
       ∧ mcNamesOf (mcDelete ([10, 20, 30] : List ℕ) 1) =
           (List.range ([10, 20, 30].length - 1)).map mcName) :=
  ⟨by decide, c8_delete_reindex [10, 20, 30] 1 (by decide)⟩

/-- On a failed update, the interactive registry is left untouched: the
overwrite of the stored matrix and parameter record only happens after all
four parses and the transform build succeed. -/
lemma intUpdate_error_frozen (st : IntState) (idx : ℕ) (p : Row4) (e : String)
    (h : (intUpdate st idx p).2 = some e) : (intUpdate st idx p).1 = st := by
  unfold intUpdate at h ⊢
  cases hA : safeSympify defaultLocals p.1 with
  | error e1 => simp [hA]
  | ok a1 =>
    cases hB : safeSympify defaultLocals p.2.1 with
    | error e1 => simp [hA, hB]
    | ok a2 =>
      cases hC : safeSympify defaultLocals p.2.2.1 with
      | error e1 => simp [hA, hB, hC]
      | ok a3 =>
        cases hD : safeSympify defaultLocals p.2.2.2 with
        | error e1 => simp [hA, hB, hC, hD]
        | ok a4 => rw [hA, hB, hC, hD] at h; simp at h

/-- On a failed apply, the free-matrix registry is left untouched: the
overwrite only happens after the whole grid parses. -/
lemma mcApply_error_frozen (st : List (MatV Expr)) (idx : ℕ)
    (grid : List (List String)) (e : String)
    (h : (mcApplyMatrix st idx grid).2 = some e) :
    (mcApplyMatrix st idx grid).1 = st := by
  unfold mcApplyMatrix at h ⊢
  cases hG : mcParseGrid grid with
  | error e1 => simp [hG]
  | ok rows => rw [hG] at h; simp at h

/-- C9: updating a registry entry is atomic on failure — if parsing any of
the four parameter strings (interactive mode) or any grid cell (free-matrix
mode) fails, the registry state, matrices and parameter records included, is
exactly what it was before the update. -/
theorem c9_update_atomic (st : IntState) (idx : ℕ) (p : Row4)
    (st2 : List (MatV Expr)) (idx2 : ℕ) (grid : List (List String))
    (e e2 : String)
    (h : (intUpdate st idx p).2 = some e)
    (h2 : (mcApplyMatrix st2 idx2 grid).2 = some e2) :
    (intUpdate st idx p).1 = st ∧ (mcApplyMatrix st2 idx2 grid).1 = st2 :=
  ⟨intUpdate_error_frozen st idx p e h,
   mcApply_error_frozen st2 idx2 grid e2 h2⟩

/-- C9 witness: a failing interactive update (empty alpha string) and a
failing grid apply (empty cell) both leave their registries unchanged. -/
theorem c9_witness :
    (intUpdate ⟨[eyeE], [("", "", "", "")]⟩ 0 ("", "0", "0", "0")).2 =
      some "Empty input."
    ∧ (mcApplyMatrix [⟨1, 1, Matrix.of fun _ _ => Expr.num 0⟩] 0 [[""]]).2 =
      some "Grid contains empty cells"
    ∧ ((intUpdate ⟨[eyeE], [("", "", "", "")]⟩ 0 ("", "0", "0", "0")).1 =
        ⟨[eyeE], [("", "", "", "")]⟩
       ∧ (mcApplyMatrix [⟨1, 1, Matrix.of fun _ _ => Expr.num 0⟩] 0 [[""]]).1 =
        [⟨1, 1, Matrix.of fun _ _ => Expr.num 0⟩]) :=
  ⟨rfl, rfl,
    c9_update_atomic ⟨[eyeE], [("", "", "", "")]⟩ 0 ("", "0", "0", "0")
      [⟨1, 1, Matrix.of fun _ _ => Expr.num 0⟩] 0 [[""]]
      "Empty input." "Grid contains empty cells" rfl rfl⟩

/-- C10: in every inverse-kinematics attempt, each row's theta-column text is
turned verbatim (after stripping) into a single symbol named by that exact
text, with no parsing, numeric evaluation or shorthand expansion; the
joint-variable list handed to the solver consists of exactly these verbatim
symbols, one per row.  A numeric entry `90` becomes the free unknown
`Symbol("90")`, a shorthand entry `t1` becomes `Symbol("t1")`, distinct from
the `theta1` symbol that `safe_sympify` would have produced. -/
theorem c10_theta_verbatim (rows : List Row4)
    (prs : List (Expr × Expr × Expr × Expr))
    (h : ikParseRows rows = .ok prs) :
    prs.map (fun r => r.2.2.2) = ikThetaVars rows
    ∧ ikThetaVars rows = rows.map (fun r => Expr.sym (pyStrip r.2.2.2) false)
    ∧ ikThetaVars [("0", "1", "0", "90")] = [Expr.sym "90" false]
    ∧ ikThetaVars [("0", "1", "0", "t1")] = [Expr.sym "t1" false]
    ∧ Expr.sym "t1" false ≠ Expr.sym "theta1" false
    ∧ safeSympify defaultLocals "t1" = .ok (Expr.sym "theta1" false) := by
  refine ⟨?_, rfl, rfl, rfl, by decide, rfl⟩
  induction rows generalizing prs with
  | nil =>
    unfold ikParseRows at h
    cases h
    rfl
  | cons r rs ih =>
    unfold ikParseRows at h
    cases hA : safeSympify defaultLocals (pyStrip r.1) with
    | error e1 => rw [hA] at h; cases h
    | ok a1 =>
      cases hB : safeSympify defaultLocals (pyStrip r.2.1) with
      | error e1 => rw [hA, hB] at h; cases h
      | ok a2 =>
        cases hC : safeSympify defaultLocals (pyStrip r.2.2.1) with
        | error e1 => rw [hA, hB, hC] at h; cases h
        | ok a3 =>
          cases hR : ikParseRows rs with
          | error e1 => rw [hA, hB, hC, hR] at h; cases h
          | ok tail =>
            rw [hA, hB, hC, hR] at h
            cases h
            have := ih tail hR
            simp [ikThetaVars] at this ⊢
            exact this

/-- Interactive display names never collide with the identity name `I`. -/
lemma intName_ne_I (k : ℕ) : intName k ≠ "I" := by
  intro h
  have hd : 'T' :: (natStrL k ++ natStrL (k + 1)) = ['I'] :=
    congrArg String.data h
  have h1 : ('T' : Char) = 'I' := ((List.cons.injEq _ _ _ _).mp hd).1
  exact absurd h1 (by decide)

/-- Free-matrix display names never collide with the identity name `I`. -/
lemma mcName_ne_I (k : ℕ) : mcName k ≠ "I" := by
  intro h
  have hd : 'M' :: natStrL k = ['I'] := congrArg String.data h
  have h1 : ('M' : Char) = 'I' := ((List.cons.injEq _ _ _ _).mp hd).1
  exact absurd h1 (by decide)

/-- Free-matrix display names never collide with the bareword `T`. -/
lemma mcName_ne_T (k : ℕ) : mcName k ≠ "T" := by
  intro h
  have hd : 'M' :: natStrL k = ['T'] := congrArg String.data h
  have h1 : ('M' : Char) = 'T' := ((List.cons.injEq _ _ _ _).mp hd).1
  exact absurd h1 (by decide)

/-- The name `T` is unbound in every free-matrix names dictionary. -/
lemma lookupName_mcEnv_T {α : Type _} :
    ∀ (k : ℕ) (ns : List (MatV α)), lookupName (mcEnv k ns) "T" = none := by
  intro k ns
  induction ns generalizing k with
  | nil => rfl
  | cons n0 nrest ih =>
    show (if mcName k = "T" then some (Val.mat n0)
      else lookupName (mcEnv (k + 1) nrest) "T") = none
    rw [if_neg (mcName_ne_T k)]
    exact ih (k + 1)

/-- The name `I` is unbound in every free-matrix names dictionary. -/
lemma lookupName_mcEnv_I {α : Type _} :
    ∀ (k : ℕ) (ns : List (MatV α)), lookupName (mcEnv k ns) "I" = none := by
  intro k ns
  induction ns generalizing k with
  | nil => rfl
  | cons n0 nrest ih =>
    show (if mcName k = "I" then some (Val.mat n0)
      else lookupName (mcEnv (k + 1) nrest) "I") = none
    rw [if_neg (mcName_ne_I k)]
    exact ih (k + 1)

/-- The name `I` always resolves to the injected identity in the interactive
names dictionary. -/
lemma lookupName_intEnv_I {α : Type _} [Field α] :
    ∀ (k : ℕ) (ms : List (Matrix (Fin 4) (Fin 4) α)),
      lookupName (intEnvAux k ms ++
          [("I", Val.mat ⟨4, 4, (1 : Matrix (Fin 4) (Fin 4) α)⟩)]) "I" =
        some (Val.mat ⟨4, 4, (1 : Matrix (Fin 4) (Fin 4) α)⟩) := by
  intro k ms
  induction ms generalizing k with
  | nil => rfl
  | cons m rest ih =>
    show (if intName k = "I" then some (Val.mat ⟨4, 4, m⟩)
      else lookupName (intEnvAux (k + 1) rest ++
        [("I", Val.mat ⟨4, 4, (1 : Matrix (Fin 4) (Fin 4) α)⟩)]) "I") = _
    rw [if_neg (intName_ne_I k)]
    exact ih (k + 1)

/-- The evaluator's inverse (reciprocal determinant times adjugate) is
Mathlib's nonsingular inverse. -/
lemma invMat_eq_inv {α : Type _} [Field α] [DecidableEq α] {n : ℕ}
    (A : Matrix (Fin n) (Fin n) α) : invMat A = A⁻¹ := by
  rw [invMat, Matrix.inv_def, Ring.inverse_eq_inv]

/-- Applying `** (-1)` to a square matrix value with nonzero determinant
yields its matrix inverse. -/
lemma pyPow_inv {α : Type _} [Field α] [DecidableEq α] {n : ℕ}
    (N : Matrix (Fin n) (Fin n) α) (hN : N.det ≠ 0) :
    pyPow (Val.mat ⟨n, n, N⟩) (Val.int (-1)) =
      .ok (Val.mat ⟨n, n, N⁻¹⟩) := by
  simp only [pyPow]
  rw [dif_pos trivial]
  rw [if_pos (show (-1 : ℤ) < 0 by norm_num)]
  simp only [Fin.cast_refl, Matrix.submatrix_id_id]
  rw [if_neg hN]
  simp [invMat_eq_inv]

/-- C5 counterexample: in the Matrix Calculator tab (free-matrix registry,
here holding one 1x1 matrix) the names dictionary contains no `I`, so
evaluating `"I"` fails with a NameError instead of returning the identity. -/
theorem c5_counterexample_mc_I :
    mcRunOperation [⟨1, 1, Matrix.of fun _ _ => (1 : ℚ)⟩] "I" =
      .error (.nameError "I") := rfl

/-- C5 amended: evaluating `"I"` returns the 4x4 identity only in the
interactive (joint-chain) evaluator and only when at least one matrix is
registered; with an empty registry the operation is rejected, and in the
free-matrix calculator the name `I` is unbound, so evaluation fails with a
NameError (or the empty-registry warning). -/
theorem c5_amended_identity (α : Type _) [Field α] [DecidableEq α]
    (ms : List (Matrix (Fin 4) (Fin 4) α)) (ns : List (MatV α))
    (h : ms ≠ []) (h2 : ns ≠ []) :
    intRunOpCalc ms "I" =
      .ok (Val.mat ⟨4, 4, (1 : Matrix (Fin 4) (Fin 4) α)⟩)
    ∧ mcRunOperation ns "I" = .error (.nameError "I")
    ∧ intRunOpCalc ([] : List (Matrix (Fin 4) (Fin 4) α)) "I" =
      .error .noMatrices
    ∧ mcRunOperation ([] : List (MatV α)) "I" = .error .noMatrices := by
  cases ms with
  | nil => exact absurd rfl h
  | cons m rest =>
    cases ns with
    | nil => exact absurd rfl h2
    | cons n0 nrest =>
      refine ⟨?_, ?_, rfl, rfl⟩
      · have hc : intRunOpCalc (m :: rest) "I" =
            (pyEval (intEnv (m :: rest)) (PyExpr.pname "I")).map simplifyVal :=
          rfl
        rw [hc]
        show (match lookupName (intEnv (m :: rest)) "I" with
          | some v => (Except.ok v : Except PyErr (Val α))
          | none => Except.error (.nameError "I")).map simplifyVal = _
        rw [intEnv, lookupName_intEnv_I 0 (m :: rest)]
        rfl
      · have hc : mcRunOperation (n0 :: nrest) "I" =
            (pyEval (mcEnv 0 (n0 :: nrest)) (PyExpr.pname "I")).map
              simplifyVal := rfl
        rw [hc]
        show (match lookupName (mcEnv 0 (n0 :: nrest)) "I" with
          | some v => (Except.ok v : Except PyErr (Val α))
          | none => Except.error (.nameError "I")).map simplifyVal = _
        rw [lookupName_mcEnv_I 0 (n0 :: nrest)]
        rfl

/-- C5 witness: concrete nonempty registries for both modes. -/
theorem c5_witness :
    ([(1 : Matrix (Fin 4) (Fin 4) ℚ)] ≠ [])
    ∧ (([⟨1, 1, Matrix.of fun _ _ => (1 : ℚ)⟩] : List (MatV ℚ)) ≠ [])
    ∧ (intRunOpCalc [(1 : Matrix (Fin 4) (Fin 4) ℚ)] "I" =
        .ok (Val.mat ⟨4, 4, (1 : Matrix (Fin 4) (Fin 4) ℚ)⟩)
       ∧ mcRunOperation ([⟨1, 1, Matrix.of fun _ _ => (1 : ℚ)⟩] : List (MatV ℚ))
          "I" = .error (.nameError "I")
       ∧ intRunOpCalc ([] : List (Matrix (Fin 4) (Fin 4) ℚ)) "I" =
          .error .noMatrices
       ∧ mcRunOperation ([] : List (MatV ℚ)) "I" = .error .noMatrices) :=
  ⟨by simp, by simp,
    c5_amended_identity ℚ [(1 : Matrix (Fin 4) (Fin 4) ℚ)]
      [⟨1, 1, Matrix.of fun _ _ => (1 : ℚ)⟩] (by simp) (by simp)⟩

/-- C6 counterexample: on the free-matrix registry the bare-name postfix
fails — the rewrite regexes only match `T`-digit names, so `"M0^T"` reaches
Python `eval` unchanged and dies with a NameError on `T` instead of
returning the transpose of `M0`. -/
theorem c6_counterexample_mc_bare_postfix :
    mcRunOperation [⟨1, 1, Matrix.of fun _ _ => (1 : ℚ)⟩] "M0^T" =
      .error (.nameError "T") := rfl

/-- C6 amended: the postfix operators apply to a bare name only when the name
matches `T` followed by digits (joint-chain names): `T01^T` and `T01^t`
return the transpose of the matrix bound to `T01` and `T01^-1` its inverse
when the determinant is nonzero.  For other names, such as the free-matrix
`M0`, the bare postfix fails with a NameError on `T`; the fully parenthesized
forms `(M0)^T` and `(M0)^-1` do apply the operators in both modes. -/
theorem c6_amended_postfix_ops (α : Type _) [Field α] [DecidableEq α]
    (A B : Matrix (Fin 4) (Fin 4) α) (k l m : ℕ)
    (M : Matrix (Fin k) (Fin l) α) (N : Matrix (Fin m) (Fin m) α)
    (ns : List (MatV α))
    (hA : A.det ≠ 0) (hN : N.det ≠ 0) (hns : ns ≠ []) :
    intRunOpCalc [A, B] "T01^T" = .ok (.mat ⟨4, 4, A.transpose⟩)
    ∧ intRunOpCalc [A, B] "T01^t" = .ok (.mat ⟨4, 4, A.transpose⟩)
    ∧ intRunOpCalc [A, B] "T01^-1" = .ok (.mat ⟨4, 4, A⁻¹⟩)
    ∧ mcRunOperation [⟨k, l, M⟩] "(M0)^T" = .ok (.mat ⟨l, k, M.transpose⟩)
    ∧ mcRunOperation [⟨m, m, N⟩] "(M0)^-1" = .ok (.mat ⟨m, m, N⁻¹⟩)
    ∧ mcRunOperation ns "M0^T" = .error (.nameError "T") := by
  refine ⟨rfl, rfl, ?_, rfl, ?_, ?_⟩
  · have hc : intRunOpCalc [A, B] "T01^-1" =
        (pyPow (Val.mat ⟨4, 4, A⟩) (Val.int (-1)) :
          Except PyErr (Val α)).map simplifyVal := rfl
    rw [hc, pyPow_inv A hA]
    rfl
  · have hc : mcRunOperation [⟨m, m, N⟩] "(M0)^-1" =
        (pyPow (Val.mat ⟨m, m, N⟩) (Val.int (-1)) :
          Except PyErr (Val α)).map simplifyVal := rfl
    rw [hc, pyPow_inv N hN]
    rfl
  · cases ns with
    | nil => exact absurd rfl hns
    | cons n0 nrest =>
      have hT : pyEval (mcEnv 0 (n0 :: nrest)) (PyExpr.pname "T") =
          (Except.error (PyErr.nameError "T") : Except PyErr (Val α)) := by
        show (match lookupName (mcEnv 0 (n0 :: nrest)) "T" with
          | some v => (Except.ok v : Except PyErr (Val α))
          | none => Except.error (.nameError "T")) = _
        rw [lookupName_mcEnv_T 0 (n0 :: nrest)]
      have hc : mcRunOperation (n0 :: nrest) "M0^T" =
          (pyEval (mcEnv 0 (n0 :: nrest))
            (PyExpr.pxor (PyExpr.pname "M0") (PyExpr.pname "T"))).map
            simplifyVal := rfl
      rw [hc]
      show ((pyEval (mcEnv 0 (n0 :: nrest)) (PyExpr.pname "M0")).bind
        (fun va => (pyEval (mcEnv 0 (n0 :: nrest)) (PyExpr.pname "T")).bind
          (fun vb => pyXorV va vb))).map simplifyVal = _
      simp only [hT]
      show ((Except.ok (Val.mat n0)).bind
        (fun va => (Except.error (PyErr.nameError "T") :
          Except PyErr (Val α)).bind
          (fun vb => pyXorV va vb))).map simplifyVal = _
      rfl

/-- C6 witness: concrete invertible matrices (identities) in both modes and a
concrete nonempty free-matrix registry. -/
theorem c6_witness :
    ((1 : Matrix (Fin 4) (Fin 4) ℚ).det ≠ 0)
    ∧ ((1 : Matrix (Fin 2) (Fin 2) ℚ).det ≠ 0)
    ∧ (([⟨1, 1, Matrix.of fun _ _ => (1 : ℚ)⟩] : List (MatV ℚ)) ≠ [])
    ∧ (intRunOpCalc [(1 : Matrix (Fin 4) (Fin 4) ℚ), 1] "T01^T" =
        .ok (.mat ⟨4, 4, (1 : Matrix (Fin 4) (Fin 4) ℚ).transpose⟩)
       ∧ intRunOpCalc [(1 : Matrix (Fin 4) (Fin 4) ℚ), 1] "T01^t" =
        .ok (.mat ⟨4, 4, (1 : Matrix (Fin 4) (Fin 4) ℚ).transpose⟩)
       ∧ intRunOpCalc [(1 : Matrix (Fin 4) (Fin 4) ℚ), 1] "T01^-1" =
        .ok (.mat ⟨4, 4, (1 : Matrix (Fin 4) (Fin 4) ℚ)⁻¹⟩)
       ∧ mcRunOperation [⟨2, 3, (0 : Matrix (Fin 2) (Fin 3) ℚ)⟩] "(M0)^T" =
        .ok (.mat ⟨3, 2, (0 : Matrix (Fin 2) (Fin 3) ℚ).transpose⟩)
       ∧ mcRunOperation [⟨2, 2, (1 : Matrix (Fin 2) (Fin 2) ℚ)⟩] "(M0)^-1" =
        .ok (.mat ⟨2, 2, (1 : Matrix (Fin 2) (Fin 2) ℚ)⁻¹⟩)
       ∧ mcRunOperation ([⟨1, 1, Matrix.of fun _ _ => (1 : ℚ)⟩] :
          List (MatV ℚ)) "M0^T" = .error (.nameError "T")) :=
  ⟨by simp [Matrix.det_one], by simp [Matrix.det_one], by simp,
    c6_amended_postfix_ops ℚ 1 1 2 3 2 (0 : Matrix (Fin 2) (Fin 3) ℚ)
      (1 : Matrix (Fin 2) (Fin 2) ℚ)
      [⟨1, 1, Matrix.of fun _ _ => (1 : ℚ)⟩]
      (by simp [Matrix.det_one]) (by simp [Matrix.det_one]) (by simp)⟩

/-- C10 witness: a concrete one-row parse with theta text `theta1`. -/
theorem c10_witness :
    ikParseRows [("0", "1", "0", "theta1")] =
      .ok [(Expr.num 0, Expr.num 1, Expr.num 0, Expr.sym "theta1" false)]
    ∧ ([(Expr.num 0, Expr.num 1, Expr.num 0,
          Expr.sym "theta1" false)].map (fun r => r.2.2.2) =
        ikThetaVars [("0", "1", "0", "theta1")]
       ∧ ikThetaVars [("0", "1", "0", "theta1")] =
          [("0", "1", "0", "theta1")].map
            (fun r => Expr.sym (pyStrip r.2.2.2) false)
       ∧ ikThetaVars [("0", "1", "0", "90")] = [Expr.sym "90" false]
       ∧ ikThetaVars [("0", "1", "0", "t1")] = [Expr.sym "t1" false]
       ∧ Expr.sym "t1" false ≠ Expr.sym "theta1" false
       ∧ safeSympify defaultLocals "t1" = .ok (Expr.sym "theta1" false)) :=
  ⟨rfl, c10_theta_verbatim [("0", "1", "0", "theta1")]
    [(Expr.num 0, Expr.num 1, Expr.num 0, Expr.sym "theta1" false)] rfl⟩

end DHCalc
